import Mathlib

/-!
Verification of the balance-ledger and approval subsystem of the
finance-partner repository.

The embedded code lives in the SQL migrations:
  * `update_partner_balance_from_sales`  (20250628121410_bitter_delta.sql,
    final version, trigger on `daily_sales`)
  * `update_business_partner_balances`   (20250628124221_spring_tooth.sql,
    trigger on `partner_transactions`)
  * `update_personal_balances`           (20250628113757_autumn_unit.sql,
    trigger on `personal_transactions`, pairwise `personal_balances`)
  * `handle_transaction_approval` / `handle_business_transaction_approval`
    (BEFORE UPDATE triggers, final versions)
  * the `valid_approval_status` / `valid_business_approval_status` CHECK
    constraints and the `different_partners` CHECK constraint
  * the balance-recalculation DO block of 20250628124221_spring_tooth.sql
    (reset to 0, set to sales totals, add net of approved business
    transactions)
plus the RLS update policy on `personal_transactions`
(20250628115936_young_thunder.sql) and the client-side operations in
`DailySales.tsx` (duplicate-date guard) and `PersonalSpace.tsx`
(approval payload).

Partner identities are modelled as `Nat` (the uuid ordering used by
`LEAST`/`GREATEST`/`<` becomes the `Nat` order), SQL `numeric` amounts as
`ℚ`, dates as `Nat`, and timestamps as `Option Nat` where only nullness
matters (`now()` is abstracted to an arbitrary fixed tick, `some 0`,
since no property depends on its value).
-/

namespace FinancePartner

/-- Approval status of a transaction row:
`status IN ('pending', 'approved', 'rejected')`. -/
inductive Status where
  | pending
  | approved
  | rejected
deriving DecidableEq, Repr

/-- A row of `partner_transactions` or `personal_transactions` (the two
tables carry the same approval columns). -/
structure Txn where
  fromId : Nat
  toId : Nat
  amount : ℚ
  status : Status
  approvedBy : Option Nat
  approvedAt : Option Nat
  rejectionReason : Option String
deriving DecidableEq, Repr

/-- A row of `daily_sales`. `partner_id` is nullable
(`ON DELETE SET NULL`); `total_amount` is the column the balance trigger
reads. -/
structure SaleRow where
  date : Nat
  partnerId : Option Nat
  totalAmount : ℚ
  onlineAmount : ℚ
  cashAmount : ℚ
deriving DecidableEq, Repr

/-- Aggregate partner balances: `partners.current_balance`, one rational
per partner id. -/
def Bal := Nat → ℚ

/-- Embeds `UPDATE partners SET current_balance = current_balance + d
WHERE id = x`. -/
def updBal (b : Bal) (x : Nat) (d : ℚ) : Bal :=
  fun q => if q = x then b q + d else b q

/-- Embeds `update_partner_balance_from_sales`, INSERT branch
(bitter_delta lines 23-32): add `total_amount` to the partner's balance
when `partner_id` is not null. -/
def saleInsTrig (r : SaleRow) (b : Bal) : Bal :=
  match r.partnerId with
  | some p => updBal b p r.totalAmount
  | none => b

/-- Embeds `update_partner_balance_from_sales`, DELETE branch
(bitter_delta lines 57-67): remove `total_amount` from the partner's
balance when `partner_id` is not null. -/
def saleDelTrig (r : SaleRow) (b : Bal) : Bal :=
  match r.partnerId with
  | some p => updBal b p (-r.totalAmount)
  | none => b

/-- Embeds `update_partner_balance_from_sales`, UPDATE branch
(bitter_delta lines 34-55): when `OLD.partner_id IS DISTINCT FROM
NEW.partner_id` or `OLD.total_amount != NEW.total_amount`, remove the old
contribution then add the new one; otherwise do nothing. -/
def saleUpdTrig (old new : SaleRow) (b : Bal) : Bal :=
  if old.partnerId ≠ new.partnerId ∨ old.totalAmount ≠ new.totalAmount then
    saleInsTrig new (saleDelTrig old b)
  else b

/-- Embeds `update_business_partner_balances`, INSERT branch
(spring_tooth lines 51-64): only for approved rows, subtract the amount
from the sender then add it to the receiver. -/
def bizInsTrig (t : Txn) (b : Bal) : Bal :=
  if t.status = .approved then
    updBal (updBal b t.fromId (-t.amount)) t.toId t.amount
  else b

/-- Embeds `update_business_partner_balances`, DELETE branch
(spring_tooth lines 67-80): only for approved rows, reverse the
transaction. -/
def bizDelTrig (t : Txn) (b : Bal) : Bal :=
  if t.status = .approved then
    updBal (updBal b t.fromId t.amount) t.toId (-t.amount)
  else b

/-- Embeds `update_business_partner_balances`, UPDATE branch
(spring_tooth lines 83-125): three sequential conditional adjustments —
reverse the old effect when leaving `approved`, apply the new effect when
entering `approved`, and apply the net amount delta (at the NEW partner
ids) when both rows are approved and the amount changed. -/
def bizUpdTrig (old new : Txn) (b : Bal) : Bal :=
  let b1 :=
    if old.status = .approved ∧ new.status ≠ .approved then
      updBal (updBal b old.fromId old.amount) old.toId (-old.amount)
    else b
  let b2 :=
    if old.status ≠ .approved ∧ new.status = .approved then
      updBal (updBal b1 new.fromId (-new.amount)) new.toId new.amount
    else b1
  if old.status = .approved ∧ new.status = .approved ∧
      old.amount ≠ new.amount then
    updBal (updBal b2 new.fromId (old.amount - new.amount)) new.toId
      (new.amount - old.amount)
  else b2

/-- Pairwise personal balances: `personal_balances` keyed by
`(partner_a_id, partner_b_id)`; `none` models an absent row (the table is
lazily populated by the upsert). -/
def PB := Nat × Nat → Option ℚ

/-- Computes `(LEAST(from, to), GREATEST(from, to))` — the canonical key of the
pair's `personal_balances` row. -/
def pairKey (t : Txn) : Nat × Nat :=
  (min t.fromId t.toId, max t.fromId t.toId)

/-- Computes `CASE WHEN from < to THEN -amount ELSE amount END` — the signed delta
applied to the canonical pair row. -/
def pdelta (t : Txn) : ℚ :=
  if t.fromId < t.toId then -t.amount else t.amount

/-- Embeds `INSERT INTO personal_balances ... ON CONFLICT DO UPDATE SET
balance_amount = balance_amount + d`: create the pair row with `d` when
absent, otherwise increment it. -/
def upsertPB (pb : PB) (k : Nat × Nat) (d : ℚ) : PB :=
  fun q => if q = k then
    match pb k with
    | some v => some (v + d)
    | none => some d
  else pb q

/-- Embeds `UPDATE personal_balances SET balance_amount = balance_amount + d
WHERE partner_a_id = k.1 AND partner_b_id = k.2`: a plain update, a no-op
when the row is absent. -/
def adjustPB (pb : PB) (k : Nat × Nat) (d : ℚ) : PB :=
  fun q => if q = k then (pb k).map (· + d) else pb q

/-- Embeds `update_personal_balances`, INSERT branch (autumn_unit lines 45-67):
only for approved rows, upsert the canonical pair row with the signed
delta. -/
def persInsTrig (t : Txn) (pb : PB) : PB :=
  if t.status = .approved then upsertPB pb (pairKey t) (pdelta t) else pb

/-- Embeds `update_personal_balances`, DELETE branch (autumn_unit lines 70-85):
only for approved rows, subtract the signed delta from the canonical pair
row. -/
def persDelTrig (t : Txn) (pb : PB) : PB :=
  if t.status = .approved then adjustPB pb (pairKey t) (-(pdelta t)) else pb

/-- Embeds `update_personal_balances`, UPDATE branch (autumn_unit lines 88-147):
reverse the delta when leaving `approved`, upsert it when entering
`approved`, and apply the combined reversal-plus-reapplication (at the OLD
pair key) when both rows are approved and the amount changed. -/
def persUpdTrig (old new : Txn) (pb : PB) : PB :=
  let p1 :=
    if old.status = .approved ∧ new.status ≠ .approved then
      adjustPB pb (pairKey old) (-(pdelta old))
    else pb
  let p2 :=
    if old.status ≠ .approved ∧ new.status = .approved then
      upsertPB p1 (pairKey new) (pdelta new)
    else p1
  if old.status = .approved ∧ new.status = .approved ∧
      old.amount ≠ new.amount then
    adjustPB p2 (pairKey old) (-(pdelta old) + pdelta new)
  else p2

/-- Embeds `handle_transaction_approval` / `handle_business_transaction_approval`
(bitter_delta lines 81-98, spring_tooth lines 137-154, final versions):
BEFORE UPDATE trigger that stamps `approved_at` on a transition into
`approved` and clears all approval metadata when the new status is
`pending`. -/
def approvalBefore (old new : Txn) : Txn :=
  let new1 :=
    if new.status = .approved ∧ old.status ≠ .approved then
      { new with approvedAt := some 0 }
    else new
  if new1.status = .pending then
    { new1 with approvedBy := none, approvedAt := none,
                rejectionReason := none }
  else new1

/-- The `valid_approval_status` / `valid_business_approval_status` CHECK
constraint: pending rows carry no approval metadata, approved rows carry
both approver and timestamp, rejected rows carry an approver. -/
def validApprovalStatus (t : Txn) : Bool :=
  (t.status = .pending && t.approvedBy = none && t.approvedAt = none) ||
  (t.status = .approved && t.approvedBy ≠ none && t.approvedAt ≠ none) ||
  (t.status = .rejected && t.approvedBy ≠ none)

/-- Database state relevant to aggregate balances: the `daily_sales` rows,
the `partner_transactions` rows, and `partners.current_balance`. -/
structure Ledger where
  sales : List SaleRow
  txs : List Txn
  bal : Bal

/-- The row-level mutations the application issues against `daily_sales`
and `partner_transactions`.  Sale updates may change any field (the
`updateSale` operation); transaction updates carry a new amount, status
and approval metadata but keep the endpoints, matching the exposed
transaction operations (create, approve, reject, reset-to-pending,
amount edit, delete) — no operation of the system edits a transaction's
`from_partner_id`/`to_partner_id`. -/
inductive Op where
  | saleInsert (r : SaleRow)
  | saleUpdate (i : Nat) (r : SaleRow)
  | saleDelete (i : Nat)
  | txInsert (r : Txn)
  | txUpdate (i : Nat) (amount : ℚ) (status : Status)
      (approvedBy : Option Nat) (approvedAtReq : Option Nat)
      (reason : Option String)
  | txDelete (i : Nat)

/-- The UPDATE payload of a transaction operation: new amount, status and
approval metadata over the stored row. -/
def txPayload (old : Txn) (a : ℚ) (st : Status) (ab : Option Nat)
    (aat : Option Nat) (rr : Option String) : Txn :=
  { old with amount := a, status := st, approvedBy := ab, approvedAt := aat,
             rejectionReason := rr }

/-- One row-level mutation against the store.  A mutation that violates a
constraint (`date UNIQUE` on `daily_sales`, `different_partners` or
`valid_business_approval_status` on `partner_transactions`) is rejected
by the database: the state is unchanged and no trigger fires.  On
success the AFTER trigger adjusts `partners.current_balance` in the same
atomic unit; transaction updates first pass through the BEFORE trigger
`handle_business_transaction_approval`. -/
def applyOp (s : Ledger) : Op → Ledger
  | .saleInsert r =>
      if s.sales.any (fun t => t.date = r.date) then s
      else { s with sales := s.sales ++ [r], bal := saleInsTrig r s.bal }
  | .saleUpdate i r =>
      match s.sales[i]? with
      | none => s
      | some old =>
          if (s.sales.eraseIdx i).any (fun t => t.date = r.date) then s
          else { s with sales := s.sales.set i r,
                        bal := saleUpdTrig old r s.bal }
  | .saleDelete i =>
      match s.sales[i]? with
      | none => s
      | some old =>
          { s with sales := s.sales.eraseIdx i,
                   bal := saleDelTrig old s.bal }
  | .txInsert r =>
      if r.fromId = r.toId ∨ ¬validApprovalStatus r then s
      else { s with txs := s.txs ++ [r], bal := bizInsTrig r s.bal }
  | .txUpdate i a st ab aat rr =>
      match s.txs[i]? with
      | none => s
      | some old =>
          let new := approvalBefore old (txPayload old a st ab aat rr)
          if validApprovalStatus new then
            { s with txs := s.txs.set i new,
                     bal := bizUpdTrig old new s.bal }
          else s
  | .txDelete i =>
      match s.txs[i]? with
      | none => s
      | some old =>
          { s with txs := s.txs.eraseIdx i, bal := bizDelTrig old s.bal }

/-- The empty store with every balance zero. -/
def initLedger : Ledger := ⟨[], [], fun _ => 0⟩

/-- Incremental execution of a sequence of mutations from the all-zero
initial state. -/
def applyOps (ops : List Op) : Ledger := ops.foldl applyOp initLedger

/-- Contribution of one `daily_sales` row to partner `q`
(the `LEFT JOIN daily_sales ds ON ds.partner_id = p.id` sum). -/
def saleContrib (q : Nat) (r : SaleRow) : ℚ :=
  if r.partnerId = some q then r.totalAmount else 0

/-- Contribution of one `partner_transactions` row to partner `q`:
`CASE WHEN pt.to_partner_id = p THEN amount WHEN pt.from_partner_id = p
THEN -amount ELSE 0 END`, restricted to `status = 'approved'`. -/
def txContrib (q : Nat) (t : Txn) : ℚ :=
  if t.status = .approved then
    if t.toId = q then t.amount
    else if t.fromId = q then -t.amount
    else 0
  else 0

/-- The balance the recalculation DO block of spring_tooth computes for
partner `q`: total of `q`-attributed sales plus the net of approved
business transactions touching `q` (starting from a reset to 0). -/
def reconcileBal (sales : List SaleRow) (txs : List Txn) (q : Nat) : ℚ :=
  (sales.map (saleContrib q)).sum + (txs.map (txContrib q)).sum

/-- The full reconciliation as a state operation: overwrite every
partner's balance with the value derived from the rows. -/
def reconcileLedger (s : Ledger) : Ledger :=
  { s with bal := fun q => reconcileBal s.sales s.txs q }

/-- Error taxonomy of the exposed operations (spec-level names for the
failure paths realized by unique/CHECK constraints and RLS policies). -/
inductive SaleError where
  | duplicateDate
deriving DecidableEq, Repr

/-- Embeds `createSale`: the duplicate-date guard of `DailySales.tsx`
(`checkDateExists`) backed by the `date UNIQUE` constraint on
`daily_sales` — when a sale for the date already exists the call fails
and nothing is mutated; otherwise the row is inserted and the balance
trigger fires. -/
def createSale (s : Ledger) (r : SaleRow) : Ledger × Option SaleError :=
  if s.sales.any (fun t => t.date = r.date) then (s, some .duplicateDate)
  else (applyOp s (.saleInsert r), none)

/-- Personal-domain state: `personal_transactions` rows and the pairwise
`personal_balances` table. -/
structure PState where
  txs : List Txn
  pb : PB

/-- Approval errors (§7 names for the failure branches of the RLS update
policy on `personal_transactions`, young_thunder lines 101-115). -/
inductive ApprovalError where
  | notFound
  | notReceiver
  | invalidState
deriving DecidableEq, Repr

/-- Embeds `approveTransaction`: the payload of
`PersonalSpace.handleTransactionApproval` (`status := approved`,
`approved_by := actor`) guarded by the RLS policy's WITH CHECK — a
non-pending row admits no update to `approved` (the policy's approved
branch only allows a reset to pending, its ELSE branch is false), and a
pending row may only be approved by its receiver.  On success the update
passes through the BEFORE trigger and the pairwise balance trigger. -/
def approveTransaction (s : PState) (i : Nat) (actor : Nat) :
    PState × Option ApprovalError :=
  match s.txs[i]? with
  | none => (s, some .notFound)
  | some t =>
      if t.status ≠ .pending then (s, some .invalidState)
      else if actor ≠ t.toId then (s, some .notReceiver)
      else
        let new := approvalBefore t
          { t with status := .approved, approvedBy := some actor }
        ({ txs := s.txs.set i new, pb := persUpdTrig t new s.pb }, none)

/-- Sample balance table used to instantiate theorems. -/
def b0 : Bal := fun _ => 0

/-- Sample (empty) pairwise balance table. -/
def pb0 : PB := fun _ => none

/-- Sample pending transaction row 1 → 2 of amount 5. -/
def txPending : Txn := ⟨1, 2, 5, .pending, none, none, none⟩

/-- Sample rejected transaction row 1 → 2 of amount 5. -/
def txRejected : Txn := ⟨1, 2, 5, .rejected, some 2, none, some "no"⟩

/-- Sample approved transaction row 1 → 2 of amount 50. -/
def txApproved : Txn := ⟨1, 2, 50, .approved, some 2, some 0, none⟩

/-- Sample sale row: date 10, attributed to partner 1, total 1000. -/
def sale1 : SaleRow := ⟨10, some 1, 1000, 500, 500⟩

/-- Sample approved transaction row 3 → 4 of amount 50 (different
endpoints than `txApproved`, same amount). -/
def txApprovedAlt : Txn := ⟨3, 4, 50, .approved, some 4, some 0, none⟩

/-- Sample update payload that resets a row to pending while still
carrying stale approval metadata (to be cleared by the BEFORE trigger). -/
def txPendingDirty : Txn := ⟨1, 2, 5, .pending, some 9, some 8, some "x"⟩

/-- Sample edit of `sale1` changing only date and the online/cash split
(same partner, same total). -/
def sale1Moved : SaleRow := ⟨11, some 1, 1000, 800, 200⟩

/-- Sample sale row clashing with `sale1` on the date. -/
def sale1Clash : SaleRow := ⟨10, some 2, 7, 7, 0⟩

/-- Sample ledger holding just `sale1`. -/
def ledger1 : Ledger := ⟨[sale1], [], fun _ => 0⟩

/-- Sample personal-domain state holding one approved transaction. -/
def pstate1 : PState := ⟨[txApproved], pb0⟩

/-! ### Helper lemmas -/

theorem updBal_apply (b : Bal) (x : Nat) (d : ℚ) (q : Nat) :
    updBal b x d q = if q = x then b q + d else b q := rfl

theorem saleIns_delta (r : SaleRow) (b : Bal) (q : Nat) :
    saleInsTrig r b q = b q + saleContrib q r := by
  unfold saleInsTrig saleContrib updBal
  cases hp : r.partnerId with
  | none => simp
  | some p =>
      by_cases hq : q = p
      · subst hq
        simp
      · simp [hq, Ne.symm hq]

theorem saleDel_delta (r : SaleRow) (b : Bal) (q : Nat) :
    saleDelTrig r b q = b q - saleContrib q r := by
  unfold saleDelTrig saleContrib updBal
  cases hp : r.partnerId with
  | none => simp
  | some p =>
      by_cases hq : q = p
      · subst hq
        simp
        try ring
      · simp [hq, Ne.symm hq]

theorem saleUpd_delta (old new : SaleRow) (b : Bal) (q : Nat) :
    saleUpdTrig old new b q = b q - saleContrib q old + saleContrib q new := by
  unfold saleUpdTrig
  by_cases hc : old.partnerId ≠ new.partnerId ∨ old.totalAmount ≠ new.totalAmount
  · rw [if_pos hc, saleIns_delta, saleDel_delta]
  · rw [if_neg hc]
    push_neg at hc
    have hco : saleContrib q old = saleContrib q new := by
      unfold saleContrib
      rw [hc.1, hc.2]
    rw [hco]
    ring

theorem pairAdj (b : Bal) (f t : Nat) (a : ℚ) (q : Nat) (h : f ≠ t) :
    updBal (updBal b f (-a)) t a q =
      b q + (if t = q then a else if f = q then -a else 0) := by
  unfold updBal
  split_ifs <;>
    first
      | ring1
      | (exfalso; omega)

theorem txContrib_approved (t : Txn) (q : Nat) (h : t.status = .approved) :
    txContrib q t =
      if t.toId = q then t.amount
      else if t.fromId = q then -t.amount else 0 := by
  unfold txContrib
  rw [if_pos h]

theorem txContrib_not_approved (t : Txn) (q : Nat)
    (h : ¬t.status = .approved) : txContrib q t = 0 := by
  unfold txContrib
  rw [if_neg h]

theorem bizIns_delta (t : Txn) (b : Bal) (q : Nat) (h : t.fromId ≠ t.toId) :
    bizInsTrig t b q = b q + txContrib q t := by
  unfold bizInsTrig
  by_cases hs : t.status = .approved
  · rw [if_pos hs, txContrib_approved t q hs]
    exact pairAdj b t.fromId t.toId t.amount q h
  · rw [if_neg hs, txContrib_not_approved t q hs]
    ring

theorem bizDel_delta (t : Txn) (b : Bal) (q : Nat) (h : t.fromId ≠ t.toId) :
    bizDelTrig t b q = b q - txContrib q t := by
  unfold bizDelTrig
  by_cases hs : t.status = .approved
  · rw [if_pos hs, txContrib_approved t q hs]
    have hpa := pairAdj b t.fromId t.toId (-t.amount) q h
    rw [neg_neg] at hpa
    rw [hpa]
    split_ifs <;> first | ring1 | (exfalso; omega)
  · rw [if_neg hs, txContrib_not_approved t q hs]
    ring

theorem bizUpd_delta (old new : Txn) (b : Bal) (q : Nat)
    (hf : new.fromId = old.fromId) (ht : new.toId = old.toId)
    (h : old.fromId ≠ old.toId) :
    bizUpdTrig old new b q = b q - txContrib q old + txContrib q new := by
  have hnew : new.fromId ≠ new.toId := by
    rw [hf, ht]
    exact h
  simp only [bizUpdTrig]
  by_cases hso : old.status = .approved
  · by_cases hsn : new.status = .approved
    · -- both approved: only the amount-change branch may fire
      have hC1 : ¬(old.status = .approved ∧ new.status ≠ .approved) :=
        fun hc => hc.2 hsn
      have hC2 : ¬(old.status ≠ .approved ∧ new.status = .approved) :=
        fun hc => hc.1 hso
      rw [if_neg hC1, if_neg hC2, txContrib_approved old q hso,
        txContrib_approved new q hsn]
      by_cases ha : old.amount = new.amount
      · have hC3 : ¬(old.status = .approved ∧ new.status = .approved ∧
            old.amount ≠ new.amount) := fun hc => hc.2.2 ha
        rw [if_neg hC3, hf, ht, ha]
        split_ifs <;> first | ring1 | (exfalso; omega)
      · rw [if_pos (⟨hso, hsn, ha⟩ : old.status = .approved ∧
          new.status = .approved ∧ old.amount ≠ new.amount)]
        have hpa := pairAdj b new.fromId new.toId (new.amount - old.amount) q
          hnew
        have harg : -(new.amount - old.amount) = old.amount - new.amount := by
          ring
        rw [harg] at hpa
        rw [hpa, hf, ht]
        split_ifs <;> first | ring1 | (exfalso; omega)
    · -- leaving approved: reverse the old effect
      have hC2 : ¬(old.status ≠ .approved ∧ new.status = .approved) :=
        fun hc => hc.1 hso
      have hC3 : ¬(old.status = .approved ∧ new.status = .approved ∧
          old.amount ≠ new.amount) := fun hc => hsn hc.2.1
      rw [if_neg hC3, if_neg hC2,
        if_pos (⟨hso, hsn⟩ : old.status = .approved ∧
          new.status ≠ .approved),
        txContrib_approved old q hso, txContrib_not_approved new q hsn]
      have hpa := pairAdj b old.fromId old.toId (-old.amount) q h
      rw [neg_neg] at hpa
      rw [hpa]
      split_ifs <;> first | ring1 | (exfalso; omega)
  · by_cases hsn : new.status = .approved
    · -- entering approved: apply the new effect
      have hC1 : ¬(old.status = .approved ∧ new.status ≠ .approved) :=
        fun hc => hso hc.1
      have hC3 : ¬(old.status = .approved ∧ new.status = .approved ∧
          old.amount ≠ new.amount) := fun hc => hso hc.1
      rw [if_neg hC3, if_neg hC1,
        if_pos (⟨hso, hsn⟩ : old.status ≠ .approved ∧
          new.status = .approved),
        txContrib_not_approved old q hso, txContrib_approved new q hsn]
      rw [pairAdj b new.fromId new.toId new.amount q hnew]
      ring
    · -- both non-approved: nothing fires
      have hC1 : ¬(old.status = .approved ∧ new.status ≠ .approved) :=
        fun hc => hso hc.1
      have hC2 : ¬(old.status ≠ .approved ∧ new.status = .approved) :=
        fun hc => hsn hc.2
      have hC3 : ¬(old.status = .approved ∧ new.status = .approved ∧
          old.amount ≠ new.amount) := fun hc => hso hc.1
      rw [if_neg hC3, if_neg hC2, if_neg hC1,
        txContrib_not_approved old q hso, txContrib_not_approved new q hsn]
      ring

theorem sum_map_concat {α : Type} (f : α → ℚ) (l : List α) (x : α) :
    ((l ++ [x]).map f).sum = (l.map f).sum + f x := by
  simp

theorem sum_map_set {α : Type} (f : α → ℚ) (l : List α) (i : Nat) (x y : α)
    (h : l[i]? = some x) :
    ((l.set i y).map f).sum = (l.map f).sum - f x + f y := by
  induction l generalizing i with
  | nil => simp at h
  | cons a tl ih =>
      cases i with
      | zero =>
          simp only [List.getElem?_cons_zero, Option.some.injEq] at h
          subst h
          simp [List.set]
          ring
      | succ n =>
          simp only [List.getElem?_cons_succ] at h
          simp only [List.set, List.map_cons, List.sum_cons, ih n h]
          ring

theorem sum_map_eraseIdx {α : Type} (f : α → ℚ) (l : List α) (i : Nat)
    (x : α) (h : l[i]? = some x) :
    ((l.eraseIdx i).map f).sum = (l.map f).sum - f x := by
  induction l generalizing i with
  | nil => simp at h
  | cons a tl ih =>
      cases i with
      | zero =>
          simp only [List.getElem?_cons_zero, Option.some.injEq] at h
          subst h
          simp [List.eraseIdx]
      | succ n =>
          simp only [List.getElem?_cons_succ] at h
          simp only [List.eraseIdx, List.map_cons, List.sum_cons, ih n h]
          ring

theorem approvalBefore_fromId (old new : Txn) :
    (approvalBefore old new).fromId = new.fromId := by
  simp only [approvalBefore]
  split_ifs <;> rfl

theorem approvalBefore_toId (old new : Txn) :
    (approvalBefore old new).toId = new.toId := by
  simp only [approvalBefore]
  split_ifs <;> rfl

theorem approvalBefore_status (old new : Txn) :
    (approvalBefore old new).status = new.status := by
  simp only [approvalBefore]
  split_ifs <;> rfl

theorem approvalBefore_amount (old new : Txn) :
    (approvalBefore old new).amount = new.amount := by
  simp only [approvalBefore]
  split_ifs <;> rfl

/-- The state invariant behind the refinement proof: every stored
transaction row respects the `different_partners` and approval-status
CHECK constraints, and the incrementally maintained balances coincide with
the reconciliation values. -/
def Inv (s : Ledger) : Prop :=
  (∀ t ∈ s.txs, t.fromId ≠ t.toId ∧ validApprovalStatus t = true) ∧
  ∀ q, s.bal q = reconcileBal s.sales s.txs q

theorem reconcileBal_sales_concat (sales : List SaleRow) (txs : List Txn)
    (r : SaleRow) (q : Nat) :
    reconcileBal (sales ++ [r]) txs q =
      reconcileBal sales txs q + saleContrib q r := by
  unfold reconcileBal
  rw [sum_map_concat]
  ring

theorem reconcileBal_txs_concat (sales : List SaleRow) (txs : List Txn)
    (t : Txn) (q : Nat) :
    reconcileBal sales (txs ++ [t]) q =
      reconcileBal sales txs q + txContrib q t := by
  unfold reconcileBal
  rw [sum_map_concat]
  ring

theorem inv_applyOp (s : Ledger) (op : Op) (h : Inv s) : Inv (applyOp s op) := by
  obtain ⟨htx, hbal⟩ := h
  cases op with
  | saleInsert r =>
      by_cases hdup : s.sales.any (fun t => t.date = r.date)
      · have happ : applyOp s (.saleInsert r) = s := by
          simp [applyOp, hdup]
        rw [happ]
        exact ⟨htx, hbal⟩
      · have happ : applyOp s (.saleInsert r) =
            { s with sales := s.sales ++ [r], bal := saleInsTrig r s.bal } := by
          simp [applyOp, hdup]
        rw [happ]
        refine ⟨htx, fun q => ?_⟩
        show saleInsTrig r s.bal q = reconcileBal (s.sales ++ [r]) s.txs q
        rw [saleIns_delta, hbal q, reconcileBal_sales_concat]
  | saleUpdate i r =>
      cases hg : s.sales[i]? with
      | none =>
          have happ : applyOp s (.saleUpdate i r) = s := by
            simp [applyOp, hg]
          rw [happ]
          exact ⟨htx, hbal⟩
      | some old =>
          by_cases hdup : (s.sales.eraseIdx i).any (fun t => t.date = r.date)
          · have happ : applyOp s (.saleUpdate i r) = s := by
              simp [applyOp, hg, hdup]
            rw [happ]
            exact ⟨htx, hbal⟩
          · have happ : applyOp s (.saleUpdate i r) =
                { s with sales := s.sales.set i r,
                         bal := saleUpdTrig old r s.bal } := by
              simp [applyOp, hg, hdup]
            rw [happ]
            refine ⟨htx, fun q => ?_⟩
            show saleUpdTrig old r s.bal q =
              reconcileBal (s.sales.set i r) s.txs q
            rw [saleUpd_delta, hbal q]
            unfold reconcileBal
            rw [sum_map_set (saleContrib q) s.sales i old r hg]
            ring
  | saleDelete i =>
      cases hg : s.sales[i]? with
      | none =>
          have happ : applyOp s (.saleDelete i) = s := by
            simp [applyOp, hg]
          rw [happ]
          exact ⟨htx, hbal⟩
      | some old =>
          have happ : applyOp s (.saleDelete i) =
              { s with sales := s.sales.eraseIdx i,
                       bal := saleDelTrig old s.bal } := by
            simp [applyOp, hg]
          rw [happ]
          refine ⟨htx, fun q => ?_⟩
          show saleDelTrig old s.bal q =
            reconcileBal (s.sales.eraseIdx i) s.txs q
          rw [saleDel_delta, hbal q]
          unfold reconcileBal
          rw [sum_map_eraseIdx (saleContrib q) s.sales i old hg]
          ring
  | txInsert r =>
      by_cases hguard : r.fromId = r.toId ∨ ¬validApprovalStatus r
      · have happ : applyOp s (.txInsert r) = s := by
          simp only [applyOp, if_pos hguard]
        rw [happ]
        exact ⟨htx, hbal⟩
      · push_neg at hguard
        obtain ⟨hne, hva⟩ := hguard
        have happ : applyOp s (.txInsert r) =
            { s with txs := s.txs ++ [r], bal := bizInsTrig r s.bal } := by
          simp only [applyOp,
            if_neg (fun hc : r.fromId = r.toId ∨ ¬validApprovalStatus r =>
              hc.elim hne fun hb => hb hva)]
        rw [happ]
        constructor
        · intro t ht
          rcases List.mem_append.mp ht with hmem | hmem
          · exact htx t hmem
          · rcases List.mem_singleton.mp hmem with rfl
            exact ⟨hne, hva⟩
        · intro q
          show bizInsTrig r s.bal q = reconcileBal s.sales (s.txs ++ [r]) q
          rw [bizIns_delta r s.bal q hne, hbal q, reconcileBal_txs_concat]
  | txUpdate i a st ab aat rr =>
      cases hg : s.txs[i]? with
      | none =>
          have happ : applyOp s (.txUpdate i a st ab aat rr) = s := by
            simp [applyOp, hg]
          rw [happ]
          exact ⟨htx, hbal⟩
      | some old =>
          have hold := htx old (List.getElem?_mem hg)
          by_cases hva : validApprovalStatus
              (approvalBefore old (txPayload old a st ab aat rr))
          · have happ : applyOp s (.txUpdate i a st ab aat rr) =
                { s with
                  txs := s.txs.set i
                    (approvalBefore old (txPayload old a st ab aat rr)),
                  bal := bizUpdTrig old
                    (approvalBefore old (txPayload old a st ab aat rr))
                    s.bal } := by
              simp [applyOp, hg, hva]
            rw [happ]
            constructor
            · intro t ht
              rcases List.mem_or_eq_of_mem_set ht with hmem | rfl
              · exact htx t hmem
              · refine ⟨?_, hva⟩
                rw [approvalBefore_fromId, approvalBefore_toId]
                exact hold.1
            · intro q
              show bizUpdTrig old
                  (approvalBefore old (txPayload old a st ab aat rr)) s.bal q =
                reconcileBal s.sales
                  (s.txs.set i
                    (approvalBefore old (txPayload old a st ab aat rr))) q
              rw [bizUpd_delta old _ s.bal q
                (by rw [approvalBefore_fromId]; rfl)
                (by rw [approvalBefore_toId]; rfl)
                hold.1, hbal q]
              unfold reconcileBal
              rw [sum_map_set (txContrib q) s.txs i old _ hg]
              ring
          · have happ : applyOp s (.txUpdate i a st ab aat rr) = s := by
              simp [applyOp, hg, hva]
            rw [happ]
            exact ⟨htx, hbal⟩
  | txDelete i =>
      cases hg : s.txs[i]? with
      | none =>
          have happ : applyOp s (.txDelete i) = s := by
            simp [applyOp, hg]
          rw [happ]
          exact ⟨htx, hbal⟩
      | some old =>
          have hold := htx old (List.getElem?_mem hg)
          have happ : applyOp s (.txDelete i) =
              { s with txs := s.txs.eraseIdx i,
                       bal := bizDelTrig old s.bal } := by
            simp [applyOp, hg]
          rw [happ]
          constructor
          · intro t ht
            exact htx t (List.mem_of_mem_eraseIdx ht)
          · intro q
            show bizDelTrig old s.bal q =
              reconcileBal s.sales (s.txs.eraseIdx i) q
            rw [bizDel_delta old s.bal q hold.1, hbal q]
            unfold reconcileBal
            rw [sum_map_eraseIdx (txContrib q) s.txs i old hg]
            ring

theorem inv_foldl (ops : List Op) (s : Ledger) (h : Inv s) :
    Inv (ops.foldl applyOp s) := by
  induction ops generalizing s with
  | nil => exact h
  | cons op tl ih => exact ih (applyOp s op) (inv_applyOp s op h)

theorem inv_init : Inv initLedger := by
  constructor
  · intro t ht
    simp [initLedger] at ht
  · intro q
    simp [initLedger, reconcileBal]

theorem inv_applyOps (ops : List Op) : Inv (applyOps ops) :=
  inv_foldl ops initLedger inv_init

/-! ### Claim theorems -/

/-- C1: for every partner and every finite sequence of sale and
transaction operations applied incrementally from the all-zero initial
state, the incrementally maintained balance equals the value the full
reconciliation computes from the final rows (sum of attributed sale
amounts plus net of approved business transactions), and running the
reconciliation twice gives the same balances as running it once. -/
theorem incremental_balance_eq_reconciliation (ops : List Op) (q : Nat) :
    (applyOps ops).bal q =
      reconcileBal (applyOps ops).sales (applyOps ops).txs q ∧
    reconcileLedger (reconcileLedger (applyOps ops)) =
      reconcileLedger (applyOps ops) := by
  refine ⟨(inv_applyOps ops).2 q, ?_⟩
  rfl

/-- C2: inserts, updates and deletes of transaction rows in which neither
the old nor the new row is approved never change any aggregate partner
balance nor any pairwise personal balance; in particular inserting a
pending row changes nothing. -/
theorem nonapproved_ops_never_touch_balances (old new : Txn) (b : Bal)
    (pb : PB) (q : Nat) (k : Nat × Nat)
    (hold : old.status ≠ .approved) (hnew : new.status ≠ .approved) :
    bizInsTrig new b q = b q ∧ bizDelTrig old b q = b q ∧
    bizUpdTrig old new b q = b q ∧
    persInsTrig new pb k = pb k ∧ persDelTrig old pb k = pb k ∧
    persUpdTrig old new pb k = pb k := by
  refine ⟨?_, ?_, ?_, ?_, ?_, ?_⟩
  · simp [bizInsTrig, hnew]
  · simp [bizDelTrig, hold]
  · simp [bizUpdTrig, hold, hnew]
  · simp [persInsTrig, hnew]
  · simp [persDelTrig, hold]
  · simp [persUpdTrig, hold, hnew]

/-- Witness for C2 at a concrete rejected-to-pending update. -/
theorem nonapproved_ops_never_touch_balances_witness :
    bizInsTrig txPending b0 1 = b0 1 ∧ bizDelTrig txRejected b0 1 = b0 1 ∧
    bizUpdTrig txRejected txPending b0 1 = b0 1 ∧
    persInsTrig txPending pb0 (1, 2) = pb0 (1, 2) ∧
    persDelTrig txRejected pb0 (1, 2) = pb0 (1, 2) ∧
    persUpdTrig txRejected txPending pb0 (1, 2) = pb0 (1, 2) :=
  nonapproved_ops_never_touch_balances txRejected txPending b0 pb0 1 (1, 2)
    (by decide) (by decide)

/-- C4: updating an approved business transaction's amount from X to Y
(status staying approved) changes the sender's balance by X - Y, the
receiver's by Y - X, and no one else's. -/
theorem approved_amount_change_delta (t : Txn) (y : ℚ) (b : Bal) (q : Nat)
    (hst : t.status = .approved) (hne : t.fromId ≠ t.toId)
    (hamt : t.amount ≠ y) :
    bizUpdTrig t { t with amount := y } b q =
      b q + (if q = t.fromId then t.amount - y
             else if q = t.toId then y - t.amount else 0) := by
  have hd := bizUpd_delta t { t with amount := y } b q rfl rfl hne
  rw [hd, txContrib_approved t q hst,
    txContrib_approved { t with amount := y } q hst]
  show (b q - (if t.toId = q then t.amount
        else if t.fromId = q then -t.amount else 0)) +
      (if t.toId = q then y else if t.fromId = q then -y else 0) =
    b q + (if q = t.fromId then t.amount - y
           else if q = t.toId then y - t.amount else 0)
  split_ifs <;> first | ring1 | (exfalso; omega)

/-- Witness for C4: amount 50 → 80 on the approved 1 → 2 row moves the
sender's balance by -30. -/
theorem approved_amount_change_delta_witness :
    bizUpdTrig txApproved { txApproved with amount := 80 } b0 1 =
      b0 1 + (if 1 = txApproved.fromId then txApproved.amount - 80
              else if 1 = txApproved.toId then 80 - txApproved.amount
              else 0) :=
  approved_amount_change_delta txApproved 80 b0 1 (by decide) (by decide)
    (by decide)

/-- C9: an update of a business transaction in which both rows are
approved and the amount is unchanged adjusts no balance, even when the
partner endpoints differ between the rows. -/
theorem approved_same_amount_update_noop (old new : Txn) (b : Bal)
    (q : Nat) (h1 : old.status = .approved) (h2 : new.status = .approved)
    (h3 : old.amount = new.amount) :
    bizUpdTrig old new b q = b q := by
  simp only [bizUpdTrig]
  have hC1 : ¬(old.status = .approved ∧ new.status ≠ .approved) :=
    fun hc => hc.2 h2
  have hC2 : ¬(old.status ≠ .approved ∧ new.status = .approved) :=
    fun hc => hc.1 h1
  have hC3 : ¬(old.status = .approved ∧ new.status = .approved ∧
      old.amount ≠ new.amount) := fun hc => hc.2.2 h3
  rw [if_neg hC3, if_neg hC2, if_neg hC1]

/-- Witness for C9 at two approved rows with different endpoints and the
same amount. -/
theorem approved_same_amount_update_noop_witness :
    bizUpdTrig txApproved txApprovedAlt b0 3 = b0 3 :=
  approved_same_amount_update_noop txApproved txApprovedAlt b0 3
    (by decide) (by decide) (by decide)

/-- C10: updating a sale entry without changing `partner_id` or
`total_amount` (for instance only the date or the online/cash split)
leaves every partner's balance unchanged. -/
theorem sale_update_same_partner_amount_noop (old new : SaleRow) (b : Bal)
    (q : Nat) (hp : old.partnerId = new.partnerId)
    (ha : old.totalAmount = new.totalAmount) :
    saleUpdTrig old new b q = b q := by
  unfold saleUpdTrig
  rw [if_neg (fun hc => hc.elim (fun hne => hne hp) (fun hne => hne ha))]

/-- Witness for C10: moving `sale1` to another date with a different
online/cash split does not move partner 1's balance. -/
theorem sale_update_same_partner_amount_noop_witness :
    saleUpdTrig sale1 sale1Moved b0 1 = b0 1 :=
  sale_update_same_partner_amount_noop sale1 sale1Moved b0 1 (by decide)
    (by decide)

/-- C5: for an approved personal transaction the delta applied to the
canonical pair (lo, hi) is -amount when the sender is the smaller id and
+amount otherwise; the pair row is created with the delta when absent and
incremented otherwise; and deleting the approved transaction restores the
pairwise balance to its prior value. -/
theorem pairwise_delta_upsert_and_delete_restore (t : Txn) (pb : PB)
    (hst : t.status = .approved) (hne : t.fromId ≠ t.toId) :
    pdelta t =
      (if t.fromId = min t.fromId t.toId then -t.amount else t.amount) ∧
    persInsTrig t pb (pairKey t) =
      some ((pb (pairKey t)).getD 0 + pdelta t) ∧
    (∀ k, k ≠ pairKey t → persInsTrig t pb k = pb k) ∧
    (∀ k, (persDelTrig t (persInsTrig t pb) k).getD 0 = (pb k).getD 0) := by
  refine ⟨?_, ?_, ?_, ?_⟩
  · unfold pdelta
    by_cases hlt : t.fromId < t.toId
    · rw [if_pos hlt, if_pos (Nat.min_eq_left (Nat.le_of_lt hlt)).symm]
    · have hgt : t.toId < t.fromId :=
        Nat.lt_of_le_of_ne (Nat.le_of_not_lt hlt) (Ne.symm hne)
      rw [if_neg hlt,
        if_neg (by rw [Nat.min_eq_right (Nat.le_of_lt hgt)]; exact hne)]
  · unfold persInsTrig upsertPB
    rw [if_pos hst, if_pos rfl]
    cases hpb : pb (pairKey t) with
    | none => simp
    | some v => simp
  · intro k hk
    unfold persInsTrig upsertPB
    rw [if_pos hst, if_neg hk]
  · intro k
    by_cases hk : k = pairKey t
    · rw [hk]
      cases hpb : pb (pairKey t) with
      | none =>
          simp [persDelTrig, adjustPB, persInsTrig, upsertPB, hst, hpb]
      | some v =>
          simp [persDelTrig, adjustPB, persInsTrig, upsertPB, hst, hpb]
    · simp [persDelTrig, adjustPB, persInsTrig, upsertPB, hst, hk]

/-- Witness for C5 at the approved 1 → 2 personal transaction of 50 over
an empty pairwise table. -/
theorem pairwise_delta_upsert_and_delete_restore_witness :
    (pdelta txApproved =
      (if txApproved.fromId = min txApproved.fromId txApproved.toId then
        -txApproved.amount else txApproved.amount)) ∧
    persInsTrig txApproved pb0 (pairKey txApproved) =
      some ((pb0 (pairKey txApproved)).getD 0 + pdelta txApproved) ∧
    (persDelTrig txApproved (persInsTrig txApproved pb0) (1, 2)).getD 0 =
      (pb0 (1, 2)).getD 0 := by
  have h := pairwise_delta_upsert_and_delete_restore txApproved pb0
    (by decide) (by decide)
  exact ⟨h.1, h.2.1, h.2.2.2 (1, 2)⟩

/-- C6: creating a sale entry and then deleting it (with no intervening
operation) leaves every partner's balance at its value from before the
creation, whether or not the create was accepted. -/
theorem create_then_delete_sale_restores_balances (s : Ledger)
    (r : SaleRow) (q : Nat) :
    (applyOp (applyOp s (.saleInsert r))
      (.saleDelete s.sales.length)).bal q = s.bal q := by
  by_cases hdup : s.sales.any (fun t => t.date = r.date)
  · have h1 : applyOp s (.saleInsert r) = s := by
      simp [applyOp, hdup]
    have h2 : s.sales[s.sales.length]? = none :=
      List.getElem?_eq_none (Nat.le_refl _)
    rw [h1]
    have h3 : applyOp s (.saleDelete s.sales.length) = s := by
      simp [applyOp, h2]
    rw [h3]
  · have h1 : applyOp s (.saleInsert r) =
        { s with sales := s.sales ++ [r], bal := saleInsTrig r s.bal } := by
      simp [applyOp, hdup]
    rw [h1]
    have hg : (s.sales ++ [r])[s.sales.length]? = some r := by
      rw [List.getElem?_append_right (Nat.le_refl _)]
      simp
    have h2 : applyOp
        { s with sales := s.sales ++ [r], bal := saleInsTrig r s.bal }
        (.saleDelete s.sales.length) =
        { sales := (s.sales ++ [r]).eraseIdx s.sales.length, txs := s.txs,
          bal := saleDelTrig r (saleInsTrig r s.bal) } := by
      simp [applyOp, hg]
    rw [h2]
    show saleDelTrig r (saleInsTrig r s.bal) q = s.bal q
    rw [saleDel_delta, saleIns_delta]
    ring

/-- C8: creating a sale for a date that already has a sale entry fails
with the duplicate-date error and has no effect: the raw insert is also
rejected by the unique constraint, so no row is added and no balance
changes. -/
theorem duplicate_date_sale_rejected (s : Ledger) (r : SaleRow)
    (h : s.sales.any (fun t => t.date = r.date) = true) :
    createSale s r = (s, some .duplicateDate) ∧
    applyOp s (.saleInsert r) = s := by
  constructor
  · simp [createSale, h]
  · simp [applyOp, h]

/-- Witness for C8: inserting a second sale dated 10 into the ledger that
already holds `sale1` fails and leaves the ledger unchanged. -/
theorem duplicate_date_sale_rejected_witness :
    createSale ledger1 sale1Clash = (ledger1, some .duplicateDate) ∧
    applyOp ledger1 (.saleInsert sale1Clash) = ledger1 :=
  duplicate_date_sale_rejected ledger1 sale1Clash (by decide)

/-- C7: every reachable transaction row satisfies the status-metadata
invariant enforced by `valid_approval_status` (pending rows carry no
approval metadata, approved rows carry approver and timestamp, rejected
rows carry an approver), and any update whose new status is pending has
its `approved_by`, `approved_at` and `rejection_reason` cleared by the
BEFORE trigger. -/
theorem status_metadata_invariant (ops : List Op) (t : Txn)
    (old new : Txn) (hmem : t ∈ (applyOps ops).txs)
    (hpend : new.status = .pending) :
    ((t.status = .pending → t.approvedBy = none ∧ t.approvedAt = none) ∧
     (t.status = .approved → t.approvedBy ≠ none ∧ t.approvedAt ≠ none) ∧
     (t.status = .rejected → t.approvedBy ≠ none)) ∧
    (approvalBefore old new).approvedBy = none ∧
    (approvalBefore old new).approvedAt = none ∧
    (approvalBefore old new).rejectionReason = none := by
  constructor
  · have hv := ((inv_applyOps ops).1 t hmem).2
    unfold validApprovalStatus at hv
    cases hst : t.status <;> rw [hst] at hv <;> simp at hv <;> simp [hv]
  · have hc1 : ¬(new.status = .approved ∧ old.status ≠ .approved) := by
      rw [hpend]
      rintro ⟨hcc, -⟩
      cases hcc
    simp [approvalBefore, if_neg hc1, if_pos hpend]

/-- Witness for C7: the reachable state after inserting one pending row,
and a reset-to-pending payload still carrying stale metadata. -/
theorem status_metadata_invariant_witness :
    ((txPending.status = .pending →
        txPending.approvedBy = none ∧ txPending.approvedAt = none) ∧
     (txPending.status = .approved →
        txPending.approvedBy ≠ none ∧ txPending.approvedAt ≠ none) ∧
     (txPending.status = .rejected → txPending.approvedBy ≠ none)) ∧
    (approvalBefore txApproved txPendingDirty).approvedBy = none ∧
    (approvalBefore txApproved txPendingDirty).approvedAt = none ∧
    (approvalBefore txApproved txPendingDirty).rejectionReason = none :=
  status_metadata_invariant [Op.txInsert txPending] txPending txApproved
    txPendingDirty (by decide) (by decide)

/-- C3: approving a transaction that is already approved fails with the
invalid-state error and returns the state unchanged, so every balance is
untouched; and in general an update of an already-approved record with
unchanged amount adjusts neither the aggregate nor the pairwise
balances. -/
theorem second_approval_invalid_state_noop (s : PState) (i actor : Nat)
    (t : Txn) (hget : s.txs[i]? = some t) (hst : t.status = .approved)
    (old2 new2 : Txn) (b : Bal) (q : Nat) (pb : PB) (k : Nat × Nat)
    (h1 : old2.status = .approved) (h2 : new2.status = .approved)
    (h3 : old2.amount = new2.amount) :
    approveTransaction s i actor = (s, some .invalidState) ∧
    bizUpdTrig old2 new2 b q = b q ∧
    persUpdTrig old2 new2 pb k = pb k := by
  refine ⟨?_, ?_, ?_⟩
  · have hnp : t.status ≠ .pending := by
      rw [hst]
      decide
    simp only [approveTransaction, hget, if_pos hnp]
  · simp only [bizUpdTrig]
    have hC1 : ¬(old2.status = .approved ∧ new2.status ≠ .approved) :=
      fun hc => hc.2 h2
    have hC2 : ¬(old2.status ≠ .approved ∧ new2.status = .approved) :=
      fun hc => hc.1 h1
    have hC3 : ¬(old2.status = .approved ∧ new2.status = .approved ∧
        old2.amount ≠ new2.amount) := fun hc => hc.2.2 h3
    rw [if_neg hC3, if_neg hC2, if_neg hC1]
  · simp only [persUpdTrig]
    have hC1 : ¬(old2.status = .approved ∧ new2.status ≠ .approved) :=
      fun hc => hc.2 h2
    have hC2 : ¬(old2.status ≠ .approved ∧ new2.status = .approved) :=
      fun hc => hc.1 h1
    have hC3 : ¬(old2.status = .approved ∧ new2.status = .approved ∧
        old2.amount ≠ new2.amount) := fun hc => hc.2.2 h3
    rw [if_neg hC3, if_neg hC2, if_neg hC1]

/-- Witness for C3: re-approving the already-approved 1 → 2 transaction
errors out and the no-op facts hold at concrete rows. -/
theorem second_approval_invalid_state_noop_witness :
    approveTransaction pstate1 0 2 = (pstate1, some .invalidState) ∧
    bizUpdTrig txApproved txApproved b0 1 = b0 1 ∧
    persUpdTrig txApproved txApproved pb0 (1, 2) = pb0 (1, 2) :=
  second_approval_invalid_state_noop pstate1 0 2 txApproved (by decide)
    (by decide) txApproved txApproved b0 1 pb0 (1, 2) (by decide)
    (by decide) (by decide)

end FinancePartner
